import Mathlib

/-!
Verification of the coveo::linq operator library against its specification.

The C++ sources embedded here live in `lib/coveo/linq/` (operator
implementations in the detail header) and `lib/coveo/enumerable/enumerable.h`
(the lazy sequence handle).  Sequences are modelled as Lean `List`s; LINQ
operators become Lean functions over lists; the two LINQ exception kinds
become an explicit error type returned through `Except`.  Predicates that the
C++ code receives as "strict ordering" comparators (`operator<` by default)
are modelled as `Bool`-valued binary functions.
-/

namespace CoveoLinq

/-- The two exception kinds defined in `coveo/linq/exception.h`:
`empty_sequence` and `out_of_range`. -/
inductive LinqError where
  | emptySequence : LinqError
  | outOfRange : LinqError
deriving DecidableEq, Repr

/-- `aggregate_impl_1::operator()`: seedless aggregate.  Throws
`empty_sequence` on an empty sequence, otherwise folds the aggregate
function starting from the first element. -/
def aggregate1 (aggF : α → α → α) : List α → Except LinqError α
  | [] => .error .emptySequence
  | x :: xs => .ok (xs.foldl aggF x)

/-- `aggregate_impl_2::operator()`: aggregate with an explicit seed.
Never fails; folds the aggregate function over the whole sequence
starting from the seed. -/
def aggregate2 (seed : β) (aggF : β → α → β) (l : List α) : β :=
  l.foldl aggF seed

/-- `sum_impl::operator()`: throws `empty_sequence` when empty, otherwise
adds up `num_f` of every element. -/
def sumImpl [Add β] (numF : α → β) : List α → Except LinqError β
  | [] => .error .emptySequence
  | x :: xs => .ok (xs.foldl (fun total e => total + numF e) (numF x))

/-- `average_impl::operator()` at numeric type `Int`: throws
`empty_sequence` when empty, otherwise divides the running total by the
running count (both of the numeric type, as in the C++ code). -/
def averageImpl (numF : α → Int) : List α → Except LinqError Int
  | [] => .error .emptySequence
  | x :: xs =>
    let p := xs.foldl (fun acc e => (acc.1 + numF e, acc.2 + 1)) (numF x, (1 : Int))
    .ok (p.1 / p.2)

/-- `max_impl_0::operator()` via `std::max_element`: keeps the current
maximum, replacing it only when a later element is strictly greater;
throws `empty_sequence` when empty. -/
def maxImpl0 [LT α] [DecidableRel (α := α) (· < ·)] : List α → Except LinqError α
  | [] => .error .emptySequence
  | x :: xs => .ok (xs.foldl (fun m e => if m < e then e else m) x)

/-- `min_impl_0::operator()` via `std::min_element`: keeps the current
minimum, replacing it only when a later element is strictly smaller;
throws `empty_sequence` when empty. -/
def minImpl0 [LT α] [DecidableRel (α := α) (· < ·)] : List α → Except LinqError α
  | [] => .error .emptySequence
  | x :: xs => .ok (xs.foldl (fun m e => if e < m then e else m) x)

/-- `first_impl_0::operator()`: first element, `empty_sequence` if none. -/
def first0 : List α → Except LinqError α
  | [] => .error .emptySequence
  | x :: _ => .ok x

/-- `first_impl_1::operator()`: `empty_sequence` when the sequence is empty,
then `std::find_if`; `out_of_range` when no element satisfies the predicate. -/
def first1 (pred : α → Bool) (l : List α) : Except LinqError α :=
  match l with
  | [] => .error .emptySequence
  | _ :: _ =>
    match l.find? pred with
    | some x => .ok x
    | none => .error .outOfRange

/-- `first_or_default_impl_0::operator()`: first element or a
default-constructed value. -/
def firstOrDefault0 [Inhabited α] : List α → α
  | [] => default
  | x :: _ => x

/-- `first_or_default_impl_1::operator()`: first element satisfying the
predicate or a default-constructed value. -/
def firstOrDefault1 [Inhabited α] (pred : α → Bool) (l : List α) : α :=
  match l.find? pred with
  | some x => x
  | none => default

/-- `last_impl_0::operator()` (forward-scan branch): walks to the last
element remembering the previous position; `empty_sequence` if none. -/
def last0 (l : List α) : Except LinqError α :=
  match l.getLast? with
  | some x => .ok x
  | none => .error .emptySequence

/-- `last_impl_1::operator()` (forward-scan branch): `empty_sequence` when
empty; otherwise scans forward remembering the most recent match and throws
`out_of_range` when no element matched. -/
def last1 (pred : α → Bool) (l : List α) : Except LinqError α :=
  match l with
  | [] => .error .emptySequence
  | _ :: _ =>
    match l.foldl (fun found x => if pred x then some x else found) none with
    | some x => .ok x
    | none => .error .outOfRange

/-- `last_or_default_impl_0::operator()`: last element or a
default-constructed value. -/
def lastOrDefault0 [Inhabited α] (l : List α) : α :=
  match l.getLast? with
  | some x => x
  | none => default

/-- `last_or_default_impl_1::operator()`: most recent element satisfying
the predicate, or a default-constructed value. -/
def lastOrDefault1 [Inhabited α] (pred : α → Bool) (l : List α) : α :=
  match l.foldl (fun found x => if pred x then some x else found) none with
  | some x => x
  | none => default

/-- `single_impl_0::operator()`: `empty_sequence` when empty, `out_of_range`
when a second element exists, otherwise the unique element. -/
def single0 : List α → Except LinqError α
  | [] => .error .emptySequence
  | [x] => .ok x
  | _ :: _ :: _ => .error .outOfRange

/-- Helper mirroring `std::find_if` followed by continuing from the position
after the found element: returns the first match and the rest of the list
after it. -/
def findRest (pred : α → Bool) : List α → Option (α × List α)
  | [] => none
  | x :: xs => if pred x then some (x, xs) else findRest pred xs

/-- `single_impl_1::operator()`: `empty_sequence` when empty; `out_of_range`
when no element matches the predicate, or when a second match exists after
the first one. -/
def single1 (pred : α → Bool) (l : List α) : Except LinqError α :=
  match l with
  | [] => .error .emptySequence
  | _ :: _ =>
    match findRest pred l with
    | none => .error .outOfRange
    | some (x, rest) =>
      match rest.find? pred with
      | some _ => .error .outOfRange
      | none => .ok x

/-- `single_or_default_impl_0::operator()`: the unique element, or a
default-constructed value when there are zero or several elements. -/
def singleOrDefault0 [Inhabited α] : List α → α
  | [] => default
  | [x] => x
  | _ :: _ :: _ => default

/-- `single_or_default_impl_1::operator()`: the unique matching element, or a
default-constructed value when there are zero or several matches. -/
def singleOrDefault1 [Inhabited α] (pred : α → Bool) (l : List α) : α :=
  match findRest pred l with
  | none => default
  | some (x, rest) =>
    match rest.find? pred with
    | some _ => default
    | none => x

/-- `element_at_impl`: advances up to `n` positions (or to the end) and
throws `out_of_range` when the end was reached before position `n`. -/
def elementAt (n : Nat) (l : List α) : Except LinqError α :=
  match l.drop n with
  | [] => .error .outOfRange
  | x :: _ => .ok x

/-- `element_at_or_default_impl`: the element at position `n`, or a
default-constructed value when the sequence is shorter. -/
def elementAtOrDefault [Inhabited α] (n : Nat) (l : List α) : α :=
  match l.drop n with
  | [] => default
  | x :: _ => x

/-- Equivalence induced by a strict-order predicate, as used by
`std::set` membership and `std::binary_search` in the set operators:
two elements are equivalent when neither is less than the other. -/
def eqvBy (lt : α → α → Bool) (x y : α) : Bool :=
  !lt x y && !lt y x

/-- One step of `std::stable_sort`'s stable order, modelled as stable
insertion into an already-sorted list: the new element is placed before the
first element that is not less than it, hence after all earlier-inserted
equivalent elements it is compared against from the left. -/
def stableInsert (lt : α → α → Bool) (x : α) : List α → List α
  | [] => [x]
  | y :: ys => if lt y x then y :: stableInsert lt x ys else x :: y :: ys

/-- Model of a stable comparison sort (`std::stable_sort`): the unique
permutation that is sorted for `lt` and keeps equivalent elements in their
original relative order.  Earlier elements are inserted last, so they end
up before the equivalent elements inserted previously. -/
def stableSort (lt : α → α → Bool) (l : List α) : List α :=
  l.foldr (stableInsert lt) []

/-- Sorted snapshot built by `except_impl`/`intersect_impl` on first pull:
the second sequence is copied into a vector and sorted with the predicate
(`std::sort`; modelled by the same deterministic comparison sort). -/
def sortByLt (lt : α → α → Bool) (l : List α) : List α :=
  stableSort lt l

/-- `std::binary_search` over the sorted snapshot: true exactly when the
snapshot holds an element equivalent to `x` under the strict order. -/
def binSearchContains (lt : α → α → Bool) (v : List α) (x : α) : Bool :=
  v.any (eqvBy lt x)

/-- `distinct_impl::next_impl::distinct_info::get_next`, with the running
`std::set` of seen elements modelled as the list of its members: each
upstream element is emitted only when inserting it into the seen set
succeeds (no equivalent element present).  Returns the emitted elements
together with the final seen set. -/
def distinctAcc (lt : α → α → Bool) : List α → List α → List α × List α
  | seen, [] => ([], seen)
  | seen, x :: xs =>
    if seen.any (eqvBy lt x) then
      distinctAcc lt seen xs
    else
      let r := distinctAcc lt (x :: seen) xs
      (x :: r.1, r.2)

/-- `distinct` operator over a full sequence: drains the upstream through
an initially empty seen set. -/
def distinctList (lt : α → α → Bool) (l : List α) : List α :=
  (distinctAcc lt [] l).1

/-- `except_impl`: lazily built sorted snapshot of the second sequence,
then the first sequence filtered to elements NOT found in the snapshot by
binary search. -/
def exceptList (lt : α → α → Bool) (l1 l2 : List α) : List α :=
  let vToFilter := sortByLt lt l2
  l1.filter (fun x => !binSearchContains lt vToFilter x)

/-- `intersect_impl`: same snapshot strategy, keeping the elements of the
first sequence that ARE found in the snapshot. -/
def intersectList (lt : α → α → Bool) (l1 l2 : List α) : List α :=
  let vInSeq2 := sortByLt lt l2
  l1.filter (fun x => binSearchContains lt vInSeq2 x)

/-- `union_impl::next_impl::union_info::get_next`: drains the first
sequence through a shared seen set, then the second sequence through the
same set, deduplicating across both. -/
def unionList (lt : α → α → Bool) (l1 l2 : List α) : List α :=
  let r1 := distinctAcc lt [] l1
  let r2 := distinctAcc lt r1.2 l2
  r1.1 ++ r2.1

/-- `order_by_comparator::operator()`: three-way comparison derived from a
key selector, a strict-order predicate on keys and a descending flag
(`_LessValue` is `1` when descending, `-1` otherwise). -/
def orderByComparator (keySel : α → κ) (pred : κ → κ → Bool) (descending : Bool) :
    α → α → Int :=
  fun left right =>
    let lessValue : Int := if descending then 1 else -1
    if pred (keySel left) (keySel right) then lessValue
    else if pred (keySel right) (keySel left) then -lessValue
    else 0

/-- `dual_order_by_comparator::operator()`: applies the first comparator
and, only on a tie (zero), the second. -/
def dualOrderByComparator (cmp1 cmp2 : α → α → Int) : α → α → Int :=
  fun left right =>
    let cmp := cmp1 left right
    if cmp = 0 then cmp2 left right else cmp

/-- `order_by_impl_with_seq`: the pending ordering operation, holding the
captured upstream sequence and the comparator that the one eventual stable
sort will use. -/
structure OrderByWithSeq (α : Type) where
  seq : List α
  cmp : α → α → Int

/-- `order_by_impl::operator()(Seq&&)`: applying an ordering operator to a
plain sequence just captures the sequence and comparator. -/
def applyOrderByToSeq (cmp : α → α → Int) (seq : List α) : OrderByWithSeq α :=
  ⟨seq, cmp⟩

/-- `order_by_impl::operator()(order_by_impl_with_seq&&)`: applying a
further ordering operator (`then_by`) to a pending ordering merges the two
by chaining the comparators into a dual comparator over the same sequence;
nothing is sorted at this point. -/
def applyOrderByToOrdered (cmp2 : α → α → Int) (impl : OrderByWithSeq α) :
    OrderByWithSeq α :=
  ⟨impl.seq, dualOrderByComparator impl.cmp cmp2⟩

/-- `order_by_impl_with_seq::init`: the one eventual stable sort, using
`(*upcmp_)(left, right) < 0` as the comparison. -/
def OrderByWithSeq.ordered (impl : OrderByWithSeq α) : List α :=
  stableSort (fun left right => decide (impl.cmp left right < 0)) impl.seq

/-- `skip_n_pred::operator()`: the index-based predicate that `skip(n)` and
`take(n)` specialize the shared mechanism with. -/
def skipNPred (n : Nat) : α → Nat → Bool :=
  fun _ idx => idx < n

/-- `skip_impl::next_impl`'s first-pull initialization: advances past the
longest prefix whose elements satisfy the predicate (which receives a
running 0-based index), then yields the rest. -/
def skipWhileIdx (pred : α → Nat → Bool) : List α → Nat → List α
  | [], _ => []
  | x :: xs, idx => if pred x idx then skipWhileIdx pred xs (idx + 1) else x :: xs

/-- The sequence produced by a `skip`-family operator. -/
def skipList (pred : α → Nat → Bool) (l : List α) : List α :=
  skipWhileIdx pred l 0

/-- `take_impl::next_impl::operator()`: yields elements while the predicate
(with running index) holds, then signals done. -/
def takeWhileIdx (pred : α → Nat → Bool) : List α → Nat → List α
  | [], _ => []
  | x :: xs, idx => if pred x idx then x :: takeWhileIdx pred xs (idx + 1) else []

/-- The sequence produced by a `take`-family operator. -/
def takeList (pred : α → Nat → Bool) (l : List α) : List α :=
  takeWhileIdx pred l 0

/-- `skip_impl::operator()`'s size delegate: propagated only when the count
`n` is known (not the `-1` sentinel of the `_while` variants) and the
upstream has a fast size; then `seq_size > n ? seq_size - n : 0`. -/
def skipSize (n : Option Nat) (upSize : Option Nat) : Option Nat :=
  match n, upSize with
  | some n, some s => some (if s > n then s - n else 0)
  | _, _ => none

/-- `take_impl::operator()`'s size delegate: propagated only when the count
`n` and the upstream size are both known; then `min(n, seq_size)`. -/
def takeSize (n : Option Nat) (upSize : Option Nat) : Option Nat :=
  match n, upSize with
  | some n, some s => some (Nat.min n s)
  | _, _ => none

/-- `where_impl::next_impl::operator()` over a whole sequence: keeps the
elements satisfying the predicate (which receives a running index). -/
def whereListIdx (pred : α → Nat → Bool) (l : List α) : List α :=
  (l.enum.filter (fun p => pred p.2 p.1)).map Prod.snd

/-- The index-less `where` operator (the predicate wrapped by
`indexless_selector_proxy` ignores the index). -/
def whereList (pred : α → Bool) (l : List α) : List α :=
  whereListIdx (fun x _ => pred x) l

/-- `zip_impl::next_impl::operator()` over whole sequences: produces the
result selector of the two current elements while both sequences still
have one, stopping as soon as either is exhausted. -/
def zipList (resultSel : α → β → γ) : List α → List β → List γ
  | x :: xs, y :: ys => resultSel x y :: zipList resultSel xs ys
  | _, _ => []

/-- `zip_impl::operator()`'s size delegate: the minimum of the two sizes
when both are known, otherwise unknown. -/
def zipSize (siz1 siz2 : Option Nat) : Option Nat :=
  match siz1, siz2 with
  | some s1, some s2 => some (Nat.min s1 s2)
  | _, _ => none

/-- One insertion into the ordered `std::map<key, vector<value>>` used by
`group_by`, `join` and `group_join` (keys at the default comparison on
`Int`): walks to the key's sorted position, appending the value at the back
of an existing equivalent key's vector or creating a new singleton group. -/
def mapInsertGroup (m : List (Int × List β)) (k : Int) (v : β) : List (Int × List β) :=
  match m with
  | [] => [(k, [v])]
  | (k0, vs) :: rest =>
    if k < k0 then (k, [v]) :: (k0, vs) :: rest
    else if k0 < k then (k0, vs) :: mapInsertGroup rest k v
    else (k0, vs ++ [v]) :: rest

/-- The grouping loop shared by `group_by_impl`, `join_impl` and
`group_join_impl`: one pass over the sequence, inserting each element's
selected value under its selected key. -/
def buildGroupsBy (keySel : α → Int) (valSel : α → β) (l : List α) :
    List (Int × List β) :=
  l.foldl (fun m e => mapInsertGroup m (keySel e) (valSel e)) []

/-- `std::map::find` over the modelled map: the group stored under a key
equivalent to `k`, or the empty list when the key is absent. -/
def mapFindGroup (m : List (Int × List β)) (k : Int) : List β :=
  match m.find? (fun e => e.1 == k) with
  | some e => e.2
  | none => []

/-- `group_by_impl::next_impl::groups_info::get_results`: builds the
map of groups from the whole upstream, then emits one result per distinct
key, in key order, through the result selector. -/
def groupByResults (keySel : α → Int) (valueSel : α → β)
    (resultSel : Int → List β → γ) (l : List α) : List γ :=
  (buildGroupsBy keySel valueSel l).map (fun g => resultSel g.1 g.2)

/-- `join_impl::next_impl::join_info::get_results`: builds the keyed
multimap of the inner sequence, then for each outer element in order emits
one result per inner element of the group matching its key (no group, no
rows). -/
def joinList (outerKeySel : α → Int) (innerKeySel : β → Int)
    (resultSel : α → β → γ) (outer : List α) (inner : List β) : List γ :=
  let keyedInnerElems := buildGroupsBy innerKeySel id inner
  outer.flatMap (fun outerElem =>
    match keyedInnerElems.find? (fun e => e.1 == outerKeySel outerElem) with
    | some e => e.2.map (resultSel outerElem)
    | none => [])

/-- `group_join_impl::next_impl::groups_info::get_results`: builds the same
keyed multimap, then emits exactly one result per outer element, pairing it
with its (possibly empty) group of matching inner elements. -/
def groupJoinList (outerKeySel : α → Int) (innerKeySel : β → Int)
    (resultSel : α → List β → γ) (outer : List α) (inner : List β) : List γ :=
  let keyedInnerElems := buildGroupsBy innerKeySel id inner
  outer.map (fun outerElem =>
    match keyedInnerElems.find? (fun e => e.1 == outerKeySel outerElem) with
    | some e => resultSel outerElem e.2
    | none => resultSel outerElem [])

/-!
Model of the lazy sequence handle (`coveo::enumerable`) and its
`const_iterator`.  The next delegate is a deterministic stateful callable;
it is modelled as a pure step function `σ → Option α × σ` plus the initial
state `zero` stored in the handle.  `begin()` copies `zero` into a fresh
iterator, so all iteration state lives in the iterator.
-/

/-- The type-erased sequence handle: the initial producer state `zero_`,
cloned into every iterator, and the pure step behaviour of the producer. -/
structure Enumerable (α : Type) (σ : Type) where
  zero : σ
  next : σ → Option α × σ

/-- The iterator: its own copy of the producer state, the lazily-loaded
current element (`pcur_`/`has_cur_`), and a position counter. -/
structure ConstIterator (α : Type) (σ : Type) where
  state : σ
  pcur : Option α
  hasCur : Bool
  pos : Nat

/-- `enumerable::begin`: a fresh iterator built from the handle's `zero_`
producer state, with no element loaded and position 0. -/
def Enumerable.begin (e : Enumerable α σ) : ConstIterator α σ :=
  ⟨e.zero, none, false, 0⟩

/-- `enumerable::end`: the sentinel iterator; `has_cur_` true with a null
current element, so it never invokes the producer. -/
def Enumerable.stop (e : Enumerable α σ) : ConstIterator α σ :=
  ⟨e.zero, none, true, 0⟩

/-- `const_iterator::get_pcur`: late-loads the current element by invoking
the producer once if it was not loaded yet. -/
def ConstIterator.load (e : Enumerable α σ) (it : ConstIterator α σ) :
    ConstIterator α σ :=
  if it.hasCur then it
  else
    let r := e.next it.state
    ⟨r.2, r.1, true, it.pos⟩

/-- The current element as observed through `operator*`/the null test. -/
def ConstIterator.getPcur (e : Enumerable α σ) (it : ConstIterator α σ) : Option α :=
  (it.load e).pcur

/-- `const_iterator::operator++`: if the current element was loaded, just
clear it; otherwise invoke the producer once to pass over it.  The position
counter always advances. -/
def ConstIterator.inc (e : Enumerable α σ) (it : ConstIterator α σ) :
    ConstIterator α σ :=
  if it.hasCur then ⟨it.state, none, false, it.pos + 1⟩
  else ⟨(e.next it.state).2, none, false, it.pos + 1⟩

/-- `const_iterator::operator==` for two iterators of the same handle:
both exhausted, or both non-exhausted at the same position. -/
def iterEq (e : Enumerable α σ) (l r : ConstIterator α σ) : Bool :=
  ((l.getPcur e).isNone == (r.getPcur e).isNone) &&
    ((l.getPcur e).isNone || l.pos == r.pos)

/-- The producer state after `n` step invocations from `s`. -/
def stepState (e : Enumerable α σ) (s : σ) : Nat → σ
  | 0 => s
  | n + 1 => stepState e (e.next s).2 n

/-- The element produced by the producer's `n`-th invocation (0-based)
starting from state `s`. -/
def produceFrom (e : Enumerable α σ) (s : σ) (n : Nat) : Option α :=
  (e.next (stepState e s n)).1

/-- The list of elements the producer yields from state `s`, stopping at
the first null result or after `fuel` invocations. -/
def produceList (e : Enumerable α σ) (s : σ) : Nat → List α
  | 0 => []
  | fuel + 1 =>
    match e.next s with
    | (none, _) => []
    | (some x, s2) => x :: produceList e s2 fuel

/-- A pass over the sequence through an iterator: load the current element,
stop on null, otherwise record it and advance. -/
def passFrom (e : Enumerable α σ) (it : ConstIterator α σ) : Nat → List α
  | 0 => []
  | fuel + 1 =>
    match it.getPcur e with
    | none => []
    | some x => x :: passFrom e ((it.load e).inc e) fuel

/-- One full pass over the handle, from a freshly obtained `begin()`. -/
def pass (e : Enumerable α σ) (fuel : Nat) : List α :=
  passFrom e e.begin fuel

/-- The iterator obtained from `begin()` after `n` increments. -/
def advanceN (e : Enumerable α σ) : Nat → ConstIterator α σ
  | 0 => e.begin
  | n + 1 => (advanceN e n).inc e

/-!
Instrumented model for the laziness and memoization claims: a source
sequence that counts how many of its elements have been read.  Applying an
operator to a pipeline is modelled as a function that receives the source
and returns the operator's freshly constructed iterator state together with
the (possibly read-from) source; pulls likewise thread the source through.
-/

/-- A source sequence that records element accesses. -/
structure Source (α : Type) where
  elems : List α
  reads : Nat

/-- A source none of whose elements have been read yet. -/
def Source.fresh (l : List α) : Source α :=
  ⟨l, 0⟩

/-- Reading the entire source once (a full materialization pass). -/
def Source.readAll (s : Source α) : List α × Source α :=
  (s.elems, ⟨s.elems, s.reads + s.elems.length⟩)

/-- The iterator state of a streaming operator (`where`, `select`, `take`):
just the cursor into the upstream.  Construction stores the captured
sequence and obtains `begin`/`end` iterators without dereferencing any
element. -/
structure StreamState where
  pos : Nat
deriving Repr

/-- `where_impl::operator()`: constructs the `next_impl` delegate, which
only stores the sequence, its end iterator and the predicate. -/
def applyWhere (src : Source α) : StreamState × Source α :=
  (⟨0⟩, src)

/-- `select_impl::operator()`: likewise stores sequence and selector only. -/
def applySelect (src : Source α) : StreamState × Source α :=
  (⟨0⟩, src)

/-- `take_impl::operator()`: stores sequence and predicate only. -/
def applyTake (src : Source α) : StreamState × Source α :=
  (⟨0⟩, src)

/-- `skip_impl::operator()`: the cursor is late-initialized (`init_flag_`
false), so construction touches nothing. -/
def applySkip (src : Source α) : Option StreamState × Source α :=
  (none, src)

/-- `distinct_impl::operator()`: stores the sequence and an empty seen set. -/
def applyDistinct (src : Source α) : (StreamState × List α) × Source α :=
  ((⟨0⟩, []), src)

/-- `union_impl::operator()`: stores both sequences and an empty seen set. -/
def applyUnion (src1 src2 : Source α) :
    (StreamState × StreamState × List α) × Source α × Source α :=
  ((⟨0⟩, ⟨0⟩, []), src1, src2)

/-- `zip_impl::operator()`: stores both sequences and their cursors. -/
def applyZip (src1 : Source α) (src2 : Source β) :
    (StreamState × StreamState) × Source α × Source β :=
  ((⟨0⟩, ⟨0⟩), src1, src2)

/-- The late-initialized snapshot state shared by `except_impl` and
`intersect_impl`: the sorted vector of the second sequence (absent until
the first `filtered`/`is_in_seq2` call) and the cursor into the first
sequence. -/
structure SnapState (α : Type) where
  snapshot : Option (List α)
  pos : Nat

/-- `except_impl::operator()`/`intersect_impl::operator()`: construction
stores the two sequences; the snapshot is not built (`init_` false). -/
def applyFilterBySnapshot (src1 src2 : Source α) :
    SnapState α × Source α × Source α :=
  (⟨none, 0⟩, src1, src2)

/-- Scans a list for the first element kept by `keep`, also returning how
many elements were examined (and therefore read). -/
def scanFirst (keep : α → Bool) : List α → Option (α × Nat)
  | [] => none
  | x :: xs =>
    if keep x then some (x, 1)
    else
      match scanFirst keep xs with
      | some r => some (r.1, r.2 + 1)
      | none => none

/-- One pull of `except_impl::next_impl`: if the first sequence still has
elements, the sorted snapshot of the second sequence is built on the first
membership test and cached (`init_` flips once); the pull then streams
through the first sequence until an element not found in the snapshot
appears. -/
def exceptPull (lt : α → α → Bool) (st : SnapState α) (src1 src2 : Source α) :
    Option α × SnapState α × Source α × Source α :=
  match src1.elems.drop st.pos with
  | [] => (none, st, src1, src2)
  | x :: xs =>
    let snapAndSrc :=
      match st.snapshot with
      | some v => (v, src2)
      | none =>
        let r := src2.readAll
        (sortByLt lt r.1, r.2)
    let snap := snapAndSrc.1
    match scanFirst (fun y => !binSearchContains lt snap y) (x :: xs) with
    | some r =>
      (some r.1, ⟨some snap, st.pos + r.2⟩,
        ⟨src1.elems, src1.reads + r.2⟩, snapAndSrc.2)
    | none =>
      (none, ⟨some snap, st.pos + (x :: xs).length⟩,
        ⟨src1.elems, src1.reads + (x :: xs).length⟩, snapAndSrc.2)

/-- One pull of `intersect_impl::next_impl`: same structure, keeping the
elements found in the snapshot. -/
def intersectPull (lt : α → α → Bool) (st : SnapState α) (src1 src2 : Source α) :
    Option α × SnapState α × Source α × Source α :=
  match src1.elems.drop st.pos with
  | [] => (none, st, src1, src2)
  | x :: xs =>
    let snapAndSrc :=
      match st.snapshot with
      | some v => (v, src2)
      | none =>
        let r := src2.readAll
        (sortByLt lt r.1, r.2)
    let snap := snapAndSrc.1
    match scanFirst (fun y => binSearchContains lt snap y) (x :: xs) with
    | some r =>
      (some r.1, ⟨some snap, st.pos + r.2⟩,
        ⟨src1.elems, src1.reads + r.2⟩, snapAndSrc.2)
    | none =>
      (none, ⟨some snap, st.pos + (x :: xs).length⟩,
        ⟨src1.elems, src1.reads + (x :: xs).length⟩, snapAndSrc.2)

/-- The memoized results cell shared by `group_by`, `join`, `group_join`
and `order_by`: the cached result vector (`init_flag_` merged into the
`Option`) and the emission cursor. -/
structure CacheState (γ : Type) where
  cache : Option (List γ)
  idx : Nat

/-- The construction state of every results-caching operator: results not
yet initialized, cursor at the start. -/
def CacheState.start : CacheState γ :=
  ⟨none, 0⟩

/-- The shared pull behaviour of the results-caching operators
(`get_results` guarded by `init_flag_`): on the first pull the whole
upstream is consumed and the result vector is built and cached; every pull
emits the element at the cursor from the cached vector. -/
def cachedPull (materialize : List α → List γ) (st : CacheState γ)
    (src : Source α) : Option γ × CacheState γ × Source α :=
  match st.cache with
  | none =>
    let r := src.readAll
    let results := materialize r.1
    (results[st.idx]?, ⟨some results, st.idx + 1⟩, r.2)
  | some results => (results[st.idx]?, ⟨some results, st.idx + 1⟩, src)

/-- `group_by_impl::operator()`: constructs the shared `groups_info` with
`init_flag_` false; nothing is read. -/
def applyGroupBy (src : Source α) : CacheState γ × Source α :=
  (CacheState.start, src)

/-- A pull of `group_by_impl::next_impl`: memoized `get_results` over
`groupByResults`. -/
def groupByPull (keySel : α → Int) (valueSel : α → β)
    (resultSel : Int → List β → γ) (st : CacheState γ) (src : Source α) :
    Option γ × CacheState γ × Source α :=
  cachedPull (groupByResults keySel valueSel resultSel) st src

/-- `order_by` applied to a sequence: `order_by_impl_with_seq` is built
with `init_flag_` false; nothing is read. -/
def applyOrderBy (src : Source α) : CacheState α × Source α :=
  (CacheState.start, src)

/-- A pull of the ordered sequence: memoized `init()` performing the one
stable sort. -/
def orderByPull (cmp : α → α → Int) (st : CacheState α) (src : Source α) :
    Option α × CacheState α × Source α :=
  cachedPull (fun l => (OrderByWithSeq.mk l cmp).ordered) st src

/-- `join_impl::operator()`/`group_join_impl::operator()`: the shared info
bean is built with `init_flag_` false; neither sequence is read. -/
def applyJoin (outerSrc : Source α) (innerSrc : Source β) :
    CacheState γ × Source α × Source β :=
  (CacheState.start, outerSrc, innerSrc)

/-- A pull of `join_impl::next_impl`: on first pull `get_results` consumes
the inner sequence into the keyed multimap and the outer sequence into the
result vector; later pulls reuse the cache. -/
def joinPull (outerKeySel : α → Int) (innerKeySel : β → Int)
    (resultSel : α → β → γ) (st : CacheState γ)
    (outerSrc : Source α) (innerSrc : Source β) :
    Option γ × CacheState γ × Source α × Source β :=
  match st.cache with
  | none =>
    let ri := innerSrc.readAll
    let ro := outerSrc.readAll
    let results := joinList outerKeySel innerKeySel resultSel ro.1 ri.1
    (results[st.idx]?, ⟨some results, st.idx + 1⟩, ro.2, ri.2)
  | some results => (results[st.idx]?, ⟨some results, st.idx + 1⟩, outerSrc, innerSrc)

/-- A pull of `group_join_impl::next_impl`: identical memoization over
`groupJoinList`. -/
def groupJoinPull (outerKeySel : α → Int) (innerKeySel : β → Int)
    (resultSel : α → List β → γ) (st : CacheState γ)
    (outerSrc : Source α) (innerSrc : Source β) :
    Option γ × CacheState γ × Source α × Source β :=
  match st.cache with
  | none =>
    let ri := innerSrc.readAll
    let ro := outerSrc.readAll
    let results := groupJoinList outerKeySel innerKeySel resultSel ro.1 ri.1
    (results[st.idx]?, ⟨some results, st.idx + 1⟩, ro.2, ri.2)
  | some results => (results[st.idx]?, ⟨some results, st.idx + 1⟩, outerSrc, innerSrc)

/-- `reverse_impl::operator()` in the non-bidirectional fallback branch:
at application time (pipeline construction) the whole upstream is copied
into a vector and reversed; the resulting handle wraps the finished
container. -/
def applyReverseFallback (src : Source α) : List α × Source α :=
  let r := src.readAll
  (r.1.reverse, r.2)

/-! Helper lemmas. -/

theorem findRest_eq_none (pred : α → Bool) (l : List α) :
    findRest pred l = none ↔ l.filter pred = [] := by
  induction l with
  | nil => simp [findRest]
  | cons x xs ih =>
    cases hx : pred x with
    | true => simp [findRest, hx]
    | false => simp [findRest, hx, ih]

theorem findRest_eq_some (pred : α → Bool) (l : List α) (x : α) (rest : List α)
    (h : findRest pred l = some (x, rest)) :
    l.filter pred = x :: rest.filter pred := by
  induction l with
  | nil => simp [findRest] at h
  | cons y ys ih =>
    cases hy : pred y with
    | true =>
      simp [findRest, hy] at h
      obtain ⟨h1, h2⟩ := h
      subst h1; subst h2
      simp [hy]
    | false =>
      simp [findRest, hy] at h
      simp [hy, ih h]

theorem foldl_lastFound (pred : α → Bool) (l : List α) (acc : Option α) :
    l.foldl (fun found x => if pred x then some x else found) acc
      = (l.reverse.find? pred).elim acc some := by
  induction l generalizing acc with
  | nil => simp
  | cons y ys ih =>
    rw [List.foldl_cons, ih]
    rw [List.reverse_cons, List.find?_append]
    cases h : ys.reverse.find? pred with
    | some z => simp [h]
    | none => cases hy : pred y <;> simp [h, hy]

/-- Claim C2: on an empty sequence, seedless aggregate, sum, average, max,
min, first, last and single all fail with the EmptySequence error; aggregate
with an explicit seed returns the seed unchanged; and every or-default
variant returns the element type's default value instead of failing. -/
theorem C2_empty_sequence_matrix :
    (∀ (α : Type) (f : α → α → α), aggregate1 f [] = .error .emptySequence) ∧
    (∀ (α β : Type) (_inst : Add β) (f : α → β), sumImpl f [] = .error .emptySequence) ∧
    (∀ (α : Type) (f : α → Int), averageImpl f [] = .error .emptySequence) ∧
    maxImpl0 ([] : List Int) = .error .emptySequence ∧
    minImpl0 ([] : List Int) = .error .emptySequence ∧
    (∀ (α : Type), first0 ([] : List α) = .error .emptySequence) ∧
    (∀ (α : Type), last0 ([] : List α) = .error .emptySequence) ∧
    (∀ (α : Type), single0 ([] : List α) = .error .emptySequence) ∧
    (∀ (α : Type) (p : α → Bool), first1 p [] = .error .emptySequence) ∧
    (∀ (α : Type) (p : α → Bool), last1 p [] = .error .emptySequence) ∧
    (∀ (α : Type) (p : α → Bool), single1 p [] = .error .emptySequence) ∧
    (∀ (α β : Type) (seed : β) (f : β → α → β), aggregate2 seed f [] = seed) ∧
    (∀ (α : Type) (_inst : Inhabited α), firstOrDefault0 ([] : List α) = default) ∧
    (∀ (α : Type) (_inst : Inhabited α) (p : α → Bool), firstOrDefault1 p [] = default) ∧
    (∀ (α : Type) (_inst : Inhabited α), lastOrDefault0 ([] : List α) = default) ∧
    (∀ (α : Type) (_inst : Inhabited α) (p : α → Bool), lastOrDefault1 p [] = default) ∧
    (∀ (α : Type) (_inst : Inhabited α), singleOrDefault0 ([] : List α) = default) ∧
    (∀ (α : Type) (_inst : Inhabited α) (p : α → Bool), singleOrDefault1 p [] = default) ∧
    (∀ (α : Type) (_inst : Inhabited α) (n : Nat), elementAtOrDefault n ([] : List α) = default) := by
  refine ⟨?_, ?_, ?_, rfl, rfl, ?_, ?_, ?_, ?_, ?_, ?_, ?_, ?_, ?_, ?_, ?_, ?_, ?_, ?_⟩ <;>
    intros <;> first | rfl | simp [elementAtOrDefault]

/-- Claim C3: element_at fails with OutOfRange exactly when the index is at
least the sequence length; first, last and single with a predicate fail
with OutOfRange when the sequence is non-empty but has no matching element
(single also when more than one element matches) and with EmptySequence
when the sequence is empty; the two failure kinds are distinguishable. -/
theorem C3_out_of_range_matrix :
    (∀ (α : Type) (n : Nat) (l : List α),
      elementAt n l = .error .outOfRange ↔ l.length ≤ n) ∧
    (∀ (α : Type) (p : α → Bool) (l : List α),
      first1 p l = .error .emptySequence ↔ l = []) ∧
    (∀ (α : Type) (p : α → Bool) (l : List α),
      last1 p l = .error .emptySequence ↔ l = []) ∧
    (∀ (α : Type) (p : α → Bool) (l : List α),
      single1 p l = .error .emptySequence ↔ l = []) ∧
    (∀ (α : Type) (p : α → Bool) (l : List α),
      first1 p l = .error .outOfRange ↔ l ≠ [] ∧ l.filter p = []) ∧
    (∀ (α : Type) (p : α → Bool) (l : List α),
      last1 p l = .error .outOfRange ↔ l ≠ [] ∧ l.filter p = []) ∧
    (∀ (α : Type) (p : α → Bool) (l : List α),
      single1 p l = .error .outOfRange ↔
        l ≠ [] ∧ (l.filter p = [] ∨ 2 ≤ (l.filter p).length)) ∧
    LinqError.emptySequence ≠ LinqError.outOfRange := by
  refine ⟨?_, ?_, ?_, ?_, ?_, ?_, ?_, by simp⟩
  · intro α n l
    rw [elementAt]
    cases h : l.drop n with
    | nil => simpa using List.drop_eq_nil_iff.mp h
    | cons x xs =>
      constructor
      · intro hc; cases hc
      · intro hlen
        rw [List.drop_eq_nil_iff.mpr hlen] at h
        cases h
  · intro α p l
    cases l with
    | nil => simp [first1]
    | cons x xs =>
      simp only [first1]
      cases h : (x :: xs).find? p <;> simp
  · intro α p l
    cases l with
    | nil => simp [last1]
    | cons x xs =>
      simp only [last1]
      rw [foldl_lastFound]
      cases h : (x :: xs).reverse.find? p <;> simp
  · intro α p l
    cases l with
    | nil => simp [single1]
    | cons x xs =>
      simp only [single1]
      cases h : findRest p (x :: xs) with
      | none => simp
      | some r =>
        obtain ⟨a, rest⟩ := r
        cases hf : rest.find? p <;> simp [hf]
  · intro α p l
    cases l with
    | nil => simp [first1]
    | cons x xs =>
      simp only [first1, ne_eq, reduceCtorEq, not_false_eq_true, true_and]
      cases h : (x :: xs).find? p with
      | none =>
        simp only [List.find?_eq_none] at h
        constructor
        · intro _
          exact List.filter_eq_nil_iff.mpr h
        · intro _
          rfl
      | some y =>
        have hy := List.find?_some h
        have hmem := List.mem_of_find?_eq_some h
        constructor
        · intro hc; cases hc
        · intro hnil
          exact absurd hy ((List.filter_eq_nil_iff.mp hnil) y hmem)
  · intro α p l
    cases l with
    | nil => simp [last1]
    | cons x xs =>
      simp only [last1, ne_eq, reduceCtorEq, not_false_eq_true, true_and]
      rw [foldl_lastFound]
      cases h : (x :: xs).reverse.find? p with
      | none =>
        simp only [List.find?_eq_none, List.mem_reverse] at h
        constructor
        · intro _
          exact List.filter_eq_nil_iff.mpr h
        · intro _
          rfl
      | some y =>
        have hy := List.find?_some h
        have hmem := List.mem_reverse.mp (List.mem_of_find?_eq_some h)
        constructor
        · intro hc; cases hc
        · intro hnil
          exact absurd hy ((List.filter_eq_nil_iff.mp hnil) y hmem)
  · intro α p l
    cases l with
    | nil => simp [single1]
    | cons x xs =>
      simp only [single1, ne_eq, reduceCtorEq, not_false_eq_true, true_and]
      cases h : findRest p (x :: xs) with
      | none =>
        have hfil := (findRest_eq_none p (x :: xs)).mp h
        simp [hfil]
      | some r =>
        obtain ⟨a, rest⟩ := r
        have hfil := findRest_eq_some p (x :: xs) a rest h
        cases hf : rest.find? p with
        | none =>
          have h2 : rest.filter p = [] := by
            simp only [List.find?_eq_none] at hf
            exact List.filter_eq_nil_iff.mpr hf
          rw [hfil, h2]
          simp [hf]
        | some y =>
          have hy := List.find?_some hf
          have hmem := List.mem_of_find?_eq_some hf
          have h2 : rest.filter p ≠ [] := by
            intro hc
            exact absurd hy ((List.filter_eq_nil_iff.mp hc) y hmem)
          rw [hfil]
          constructor
          · intro _
            right
            cases hr : rest.filter p with
            | nil => exact absurd hr h2
            | cons b bs => simp [hr]
          · intro _
            simp [hf]

theorem skipWhileIdx_skipNPred (n : Nat) (l : List α) :
    ∀ k, skipWhileIdx (skipNPred n) l k = l.drop (n - k) := by
  induction l with
  | nil => intro k; simp [skipWhileIdx]
  | cons x xs ih =>
    intro k
    by_cases hk : k < n
    · have hs : n - k = (n - (k + 1)) + 1 := by omega
      simp [skipWhileIdx, skipNPred, hk, hs, ih (k + 1)]
    · have hnk : n - k = 0 := by omega
      simp [skipWhileIdx, skipNPred, hk, hnk]

theorem takeWhileIdx_skipNPred (n : Nat) (l : List α) :
    ∀ k, takeWhileIdx (skipNPred n) l k = l.take (n - k) := by
  induction l with
  | nil => intro k; simp [takeWhileIdx]
  | cons x xs ih =>
    intro k
    by_cases hk : k < n
    · have hs : n - k = (n - (k + 1)) + 1 := by omega
      simp [takeWhileIdx, skipNPred, hk, hs, ih (k + 1)]
    · have hnk : n - k = 0 := by omega
      simp [takeWhileIdx, skipNPred, hk, hnk]

/-- Claim C7: skip(n) yields everything after the first n elements (empty
when n is at least the length) and take(n) yields the first n elements (the
whole sequence when n is at least the length), never an error; with a known
upstream fast size, skip(n) reports size max(0, upstream - n) and take(n)
reports min(n, upstream), while the predicate-based variants (count
unknown, the -1 sentinel modelled as `none`) report size unknown. -/
theorem C7_skip_take_spec (α : Type) (n : Nat) (u : Option Nat) (l : List α) :
    skipList (skipNPred n) l = l.drop n ∧
    takeList (skipNPred n) l = l.take n ∧
    (l.length ≤ n → skipList (skipNPred n) l = [] ∧ takeList (skipNPred n) l = l) ∧
    skipSize (some n) (some l.length) = some (l.length - n) ∧
    takeSize (some n) (some l.length) = some (Nat.min n l.length) ∧
    skipSize (some n) none = none ∧
    takeSize (some n) none = none ∧
    skipSize none u = none ∧
    takeSize none u = none := by
  have hskip : skipList (skipNPred n) l = l.drop n := by
    rw [skipList, skipWhileIdx_skipNPred, Nat.sub_zero]
  have htake : takeList (skipNPred n) l = l.take n := by
    rw [takeList, takeWhileIdx_skipNPred, Nat.sub_zero]
  refine ⟨hskip, htake, ?_, ?_, rfl, rfl, rfl, rfl, rfl⟩
  · intro hle
    constructor
    · rw [hskip]; exact List.drop_eq_nil_iff.mpr hle
    · rw [htake]; exact List.take_of_length_le hle
  · by_cases hgt : l.length > n
    · simp [skipSize, hgt]
    · simp [skipSize, hgt]
      omega

/-- Claim C7 witness: the specification evaluated at n = 5 over a
three-element sequence, discharging the beyond-length hypothesis. -/
theorem C7_skip_take_spec_witness :
    skipList (skipNPred 5) ([10, 20, 30] : List Int) = [] ∧
    takeList (skipNPred 5) ([10, 20, 30] : List Int) = [10, 20, 30] := by
  have h := C7_skip_take_spec Int 5 none [10, 20, 30]
  exact h.2.2.1 (by decide)

/-- `detail::less<>` instantiated at element type `Int`: the default
comparison predicate of the set and ordering operators. -/
def defaultLess : Int → Int → Bool := fun a b => decide (a < b)

/-- Claim C8: the boundary cases of the set operators, elements emitted in
order of first occurrence in the primary (then, for union, the second)
sequence, under the default less-than comparison. -/
theorem C8_set_operator_boundary_cases :
    distinctList defaultLess ([] : List Int) = [] ∧
    distinctList defaultLess [1, 1, 2, 2, 3] = [1, 2, 3] ∧
    exceptList defaultLess [1, 2, 3] [2] = [1, 3] ∧
    intersectList defaultLess [1, 2, 3] [2, 4] = [2] ∧
    unionList defaultLess [1, 2] [2, 3] = [1, 2, 3] := by
  refine ⟨rfl, ?_, ?_, ?_, ?_⟩ <;> decide

theorem zipList_length (f : α → β → γ) :
    ∀ (l1 : List α) (l2 : List β),
      (zipList f l1 l2).length = Nat.min l1.length l2.length
  | [], [] => rfl
  | [], _ :: _ => rfl
  | _ :: _, [] => rfl
  | x :: xs, y :: ys => by
    simp only [zipList, List.length_cons, zipList_length f xs ys, Nat.succ_min_succ]

theorem zipList_getElem? (f : α → β → γ) :
    ∀ (l1 : List α) (l2 : List β) (i : Nat),
      (zipList f l1 l2)[i]? =
        match l1[i]?, l2[i]? with
        | some a, some b => some (f a b)
        | _, _ => none
  | [], l2, i => by
    cases l2 <;> cases i <;> simp [zipList]
  | x :: xs, [], i => by
    cases i <;> simp [zipList]
  | x :: xs, y :: ys, 0 => by
    simp [zipList]
  | x :: xs, y :: ys, i + 1 => by
    simpa [zipList] using zipList_getElem? f xs ys i

/-- Claim C10: zip produces a sequence of length min of the two inputs,
whose i-th element is the result selector applied to the i-th elements of
both (production stops when either input is exhausted), and its fast size
is the minimum of the two when both are known, unknown otherwise. -/
theorem C10_zip_spec (α β γ : Type) (f : α → β → γ) (l1 : List α) (l2 : List β) :
    (zipList f l1 l2).length = Nat.min l1.length l2.length ∧
    (∀ i : Nat, (zipList f l1 l2)[i]? =
      match l1[i]?, l2[i]? with
      | some a, some b => some (f a b)
      | _, _ => none) ∧
    zipSize (some l1.length) (some l2.length) = some (Nat.min l1.length l2.length) ∧
    (∀ u : Option Nat, zipSize none u = none ∧ zipSize u none = none) := by
  refine ⟨zipList_length f l1 l2, zipList_getElem? f l1 l2, rfl, ?_⟩
  intro u
  cases u <;> exact ⟨rfl, rfl⟩

/-- `operator<` at type `bool` (false before true), the comparison used on
the keys produced by the README's is-even selector. -/
def boolLess : Bool → Bool → Bool := fun a b => !a && b

/-- The README example's is-even key selector. -/
def isEvenInt (i : Int) : Bool := i % 2 == 0

/-- The README example's first source array. -/
def readmeFirst : List Int := [42, 23, 66, 13, 11, 7, 24, 10]

/-- The README example's second source array. -/
def readmeSecond : List Int := [67, 22, 13, 23, 41, 66, 6, 7, 10]

/-- The full README pipeline: intersect, filter out 13, order by is-even
descending, then by natural value ascending. -/
def readmePipeline : List Int :=
  (applyOrderByToOrdered (orderByComparator (fun i => i) defaultLess false)
    (applyOrderByToSeq (orderByComparator isEvenInt boolLess true)
      (whereList (fun i => i != 13)
        (intersectList defaultLess readmeFirst readmeSecond)))).ordered

/-- Claim C1 counterexample: 13 occurs in both input arrays, so it IS in
the intersection (the claim says the intersection is {66,23,7,10} with 13
already absent), and the where-filter removing 13 is NOT a no-op. -/
theorem C1_counterexample :
    (13 ∈ intersectList defaultLess readmeFirst readmeSecond) ∧
    whereList (fun i => i != 13) (intersectList defaultLess readmeFirst readmeSecond)
      ≠ intersectList defaultLess readmeFirst readmeSecond := by
  refine ⟨?_, ?_⟩ <;> decide

/-- Claim C1 (amended): the intersection of the two README arrays under
the default comparison is [23, 66, 13, 7, 10] (containing 13, which occurs
in both arrays); the where-filter then removes 13, giving [23, 66, 7, 10];
and ordering by is-even descending then natural ascending produces the
final sequence [10, 66, 7, 23]. -/
theorem C1_readme_pipeline :
    intersectList defaultLess readmeFirst readmeSecond = [23, 66, 13, 7, 10] ∧
    whereList (fun i => i != 13) (intersectList defaultLess readmeFirst readmeSecond)
      = [23, 66, 7, 10] ∧
    readmePipeline = [10, 66, 7, 23] := by
  refine ⟨?_, ?_, ?_⟩ <;> decide

theorem filter_stableInsert_pos (lt : α → α → Bool) (p : α → Bool) (x : α)
    (hx : p x = true) (h : ∀ y, p y = true → lt y x = false) (s : List α) :
    (stableInsert lt x s).filter p = x :: s.filter p := by
  induction s with
  | nil => simp [stableInsert, hx]
  | cons y ys ih =>
    cases hly : lt y x with
    | true =>
      have hpy : p y = false := by
        cases hpy : p y with
        | true => rw [h y hpy] at hly; cases hly
        | false => rfl
      simp [stableInsert, hly, hpy, ih]
    | false =>
      simp [stableInsert, hly, hx]

theorem filter_stableInsert_neg (lt : α → α → Bool) (p : α → Bool) (x : α)
    (hx : p x = false) (s : List α) :
    (stableInsert lt x s).filter p = s.filter p := by
  induction s with
  | nil => simp [stableInsert, hx]
  | cons y ys ih =>
    cases hly : lt y x with
    | true =>
      simp only [stableInsert, hly, if_true]
      cases hpy : p y <;> simp [hpy, ih]
    | false => simp [stableInsert, hly, hx]

/-- Stability of the modelled stable sort: a class of mutually tied
elements (the comparison never orders one before another) comes out of the
sort in its original relative order. -/
theorem filter_stableSort (lt : α → α → Bool) (p : α → Bool)
    (h : ∀ y z, p y = true → p z = true → lt y z = false) (l : List α) :
    (stableSort lt l).filter p = l.filter p := by
  induction l with
  | nil => rfl
  | cons a l ih =>
    show (stableInsert lt a (stableSort lt l)).filter p = _
    cases hpa : p a with
    | true =>
      rw [filter_stableInsert_pos lt p a hpa (fun y hy => h y a hy hpa), ih]
      simp [hpa]
    | false =>
      rw [filter_stableInsert_neg lt p a hpa, ih]
      simp [hpa]

/-- Claim C4: applying then_by(key2) to an order_by(key) pipeline does not
re-sort: it merges the comparators into the dual comparator (first
comparator, then second on a tie) over the same captured sequence, the
result being produced by the one eventual stable sort; consequently
elements tied on both keys keep their original upstream relative order. -/
theorem C4_then_by_stable (α : Type) (key key2 : α → Int) (l : List α) :
    (applyOrderByToOrdered (orderByComparator key2 defaultLess false)
        (applyOrderByToSeq (orderByComparator key defaultLess false) l)
      = OrderByWithSeq.mk l
          (dualOrderByComparator (orderByComparator key defaultLess false)
            (orderByComparator key2 defaultLess false))) ∧
    ((applyOrderByToOrdered (orderByComparator key2 defaultLess false)
        (applyOrderByToSeq (orderByComparator key defaultLess false) l)).ordered
      = stableSort
          (fun a b =>
            decide (dualOrderByComparator (orderByComparator key defaultLess false)
              (orderByComparator key2 defaultLess false) a b < 0)) l) ∧
    (∀ k1 k2 : Int,
      ((applyOrderByToOrdered (orderByComparator key2 defaultLess false)
          (applyOrderByToSeq (orderByComparator key defaultLess false) l)).ordered).filter
            (fun y => key y == k1 && key2 y == k2)
        = l.filter (fun y => key y == k1 && key2 y == k2)) := by
  refine ⟨rfl, rfl, ?_⟩
  intro k1 k2
  apply filter_stableSort
  intro y z hy hz
  simp only [Bool.and_eq_true, beq_iff_eq] at hy hz
  simp [applyOrderByToOrdered, applyOrderByToSeq, dualOrderByComparator,
    orderByComparator, defaultLess, hy.1, hy.2, hz.1, hz.2]

theorem mapFindGroup_nil (k : Int) : mapFindGroup ([] : List (Int × List β)) k = [] :=
  rfl

theorem mapFindGroup_cons (k0 : Int) (vs : List β) (rest : List (Int × List β))
    (k2 : Int) :
    mapFindGroup ((k0, vs) :: rest) k2
      = if k0 = k2 then vs else mapFindGroup rest k2 := by
  by_cases h : k0 = k2
  · simp [mapFindGroup, List.find?_cons, h]
  · simp [mapFindGroup, List.find?_cons, h]

theorem mapFindGroup_eq_nil (m : List (Int × List β)) (k2 : Int)
    (h : ∀ q ∈ m, q.1 ≠ k2) : mapFindGroup m k2 = [] := by
  rw [mapFindGroup, List.find?_eq_none.mpr]
  intro q hq
  simpa using h q hq

theorem mem_keys_mapInsertGroup (m : List (Int × List β)) (k : Int) (v : β) :
    ∀ q ∈ mapInsertGroup m k v, q.1 = k ∨ q.1 ∈ m.map Prod.fst := by
  induction m with
  | nil =>
    intro q hq
    simp [mapInsertGroup] at hq
    left; rw [hq]
  | cons e rest ih =>
    obtain ⟨k0, vs⟩ := e
    intro q hq
    by_cases h1 : k < k0
    · simp only [mapInsertGroup, h1, if_true, List.mem_cons] at hq
      rcases hq with hq | hq | hq
      · left; rw [hq]
      · right; rw [hq]; simp
      · right; simp only [List.map_cons, List.mem_cons]; right
        exact List.mem_map.mpr ⟨q, hq, rfl⟩
    · by_cases h2 : k0 < k
      · simp only [mapInsertGroup, h1, h2, if_true, if_false, List.mem_cons] at hq
        rcases hq with hq | hq
        · right; rw [hq]; simp
        · rcases ih q hq with hk | hm
          · left; exact hk
          · right; simp only [List.map_cons, List.mem_cons]; right; exact hm
      · simp only [mapInsertGroup, h1, h2, if_false, List.mem_cons] at hq
        rcases hq with hq | hq
        · left; rw [hq]; omega
        · right; simp only [List.map_cons, List.mem_cons]; right
          exact List.mem_map.mpr ⟨q, hq, rfl⟩

theorem pairwise_mapInsertGroup (m : List (Int × List β)) (k : Int) (v : β)
    (hm : m.Pairwise (fun a b => a.1 < b.1)) :
    (mapInsertGroup m k v).Pairwise (fun a b => a.1 < b.1) := by
  induction m with
  | nil => simp [mapInsertGroup]
  | cons e rest ih =>
    obtain ⟨k0, vs⟩ := e
    rw [List.pairwise_cons] at hm
    by_cases h1 : k < k0
    · simp only [mapInsertGroup, h1, if_true]
      rw [List.pairwise_cons]
      constructor
      · intro b hb
        rcases List.mem_cons.mp hb with hb | hb
        · rw [hb]; exact h1
        · exact lt_trans h1 (hm.1 b hb)
      · exact List.pairwise_cons.mpr hm
    · by_cases h2 : k0 < k
      · simp only [mapInsertGroup, h1, h2, if_true, if_false]
        rw [List.pairwise_cons]
        constructor
        · intro b hb
          rcases mem_keys_mapInsertGroup rest k v b hb with hbk | hbm
          · rw [hbk]; exact h2
          · obtain ⟨q, hq, hqe⟩ := List.mem_map.mp hbm
            rw [← hqe]
            exact hm.1 q hq
        · exact ih hm.2
      · simp only [mapInsertGroup, h1, h2, if_false]
        rw [List.pairwise_cons]
        exact ⟨hm.1, hm.2⟩

theorem mapFindGroup_mapInsertGroup (m : List (Int × List β)) (k k2 : Int) (v : β)
    (hm : m.Pairwise (fun a b => a.1 < b.1)) :
    mapFindGroup (mapInsertGroup m k v) k2
      = if k = k2 then mapFindGroup m k2 ++ [v] else mapFindGroup m k2 := by
  induction m with
  | nil =>
    by_cases h : k = k2 <;>
      simp [mapInsertGroup, mapFindGroup_cons, mapFindGroup_nil, h]
  | cons e rest ih =>
    obtain ⟨k0, vs⟩ := e
    rw [List.pairwise_cons] at hm
    by_cases h1 : k < k0
    · simp only [mapInsertGroup, h1, if_true]
      rw [mapFindGroup_cons, mapFindGroup_cons]
      by_cases hk2 : k = k2
      · subst hk2
        have hnone : mapFindGroup ((k0, vs) :: rest) k = [] := by
          apply mapFindGroup_eq_nil
          intro q hq
          rcases List.mem_cons.mp hq with hq | hq
          · rw [hq]; omega
          · have := hm.1 q hq
            omega
        rw [mapFindGroup_cons] at hnone
        have hk0 : ¬ (k0 = k) := by omega
        rw [if_neg hk0] at hnone
        simp [hk0, hnone]
      · simp [hk2]
    · by_cases h2 : k0 < k
      · simp only [mapInsertGroup, h1, h2, if_true, if_false]
        rw [mapFindGroup_cons, mapFindGroup_cons]
        by_cases hk02 : k0 = k2
        · have hkk2 : ¬ (k = k2) := by omega
          simp [hk02, hkk2]
        · simp only [hk02, if_false]
          exact ih hm.2
      · have hkk0 : k = k0 := by omega
        subst hkk0
        simp only [mapInsertGroup, h1, h2, if_false]
        rw [mapFindGroup_cons, mapFindGroup_cons]
        by_cases hk2 : k = k2
        · simp [hk2]
        · simp [hk2]

theorem mapFindGroup_foldl (keySel : α → Int) (valSel : α → β) (l : List α) :
    ∀ (m : List (Int × List β)), m.Pairwise (fun a b => a.1 < b.1) →
      ∀ k, mapFindGroup (l.foldl (fun acc e => mapInsertGroup acc (keySel e) (valSel e)) m) k
        = mapFindGroup m k ++ (l.filter (fun e => keySel e == k)).map valSel := by
  induction l with
  | nil => intro m _ k; simp
  | cons e l ih =>
    intro m hm k
    rw [List.foldl_cons]
    rw [ih _ (pairwise_mapInsertGroup m _ _ hm) k]
    rw [mapFindGroup_mapInsertGroup m (keySel e) k (valSel e) hm]
    by_cases hk : keySel e = k
    · simp [hk]
    · simp [hk]

theorem buildGroups_pairwise (keySel : α → Int) (valSel : α → β) (l : List α) :
    (buildGroupsBy keySel valSel l).Pairwise (fun a b => a.1 < b.1) := by
  rw [buildGroupsBy]
  generalize hm : ([] : List (Int × List β)) = m
  have hp : m.Pairwise (fun a b => a.1 < b.1) := by rw [← hm]; exact List.Pairwise.nil
  clear hm
  induction l generalizing m with
  | nil => exact hp
  | cons e l ih =>
    rw [List.foldl_cons]
    exact ih _ (pairwise_mapInsertGroup m _ _ hp)

theorem mapFindGroup_buildGroupsBy (keySel : α → Int) (valSel : α → β)
    (l : List α) (k : Int) :
    mapFindGroup (buildGroupsBy keySel valSel l) k
      = (l.filter (fun e => keySel e == k)).map valSel := by
  rw [buildGroupsBy, mapFindGroup_foldl keySel valSel l [] List.Pairwise.nil k]
  simp [mapFindGroup_nil]

theorem mapFindGroup_match_map (m : List (Int × List β)) (k : Int) (g : β → γ) :
    (match m.find? (fun e => e.1 == k) with
      | some e => e.2.map g
      | none => []) = (mapFindGroup m k).map g := by
  rw [mapFindGroup]
  cases m.find? (fun e => e.1 == k) <;> simp

theorem mapFindGroup_match_apply (m : List (Int × List β)) (k : Int) (o : α)
    (f : α → List β → γ) :
    (match m.find? (fun e => e.1 == k) with
      | some e => f o e.2
      | none => f o []) = f o (mapFindGroup m k) := by
  rw [mapFindGroup]
  cases m.find? (fun e => e.1 == k) <;> simp

/-- Claim C6: join produces one row per (outer, matching inner) pair, outer
order preserved, matches within a key in inner-scan order, unmatched outer
elements omitted; group_join produces exactly one row per outer element,
pairing unmatched outer elements with the empty group; and the concrete
example outer [A,B] (keys 1,2), inner [X(1),Y(2),Z(1)] gives rows
(A,X),(A,Z),(B,Y). -/
theorem C6_join_cardinality :
    (∀ (α β γ : Type) (oks : α → Int) (iks : β → Int) (f : α → β → γ)
        (outer : List α) (inner : List β),
      joinList oks iks f outer inner
        = outer.flatMap (fun o => (inner.filter (fun i => iks i == oks o)).map (f o))) ∧
    (∀ (α β γ : Type) (oks : α → Int) (iks : β → Int) (f : α → List β → γ)
        (outer : List α) (inner : List β),
      groupJoinList oks iks f outer inner
        = outer.map (fun o => f o (inner.filter (fun i => iks i == oks o)))) ∧
    (∀ (α β γ : Type) (oks : α → Int) (iks : β → Int) (f : α → List β → γ)
        (outer : List α) (inner : List β),
      (groupJoinList oks iks f outer inner).length = outer.length) ∧
    joinList (fun p : Int × Int => p.2) (fun p : Int × Int => p.2)
        (fun o i => (o.1, i.1)) [(0, 1), (1, 2)] [(10, 1), (11, 2), (12, 1)]
      = [((0 : Int), (10 : Int)), (0, 12), (1, 11)] := by
  have hjoin : ∀ (α β γ : Type) (oks : α → Int) (iks : β → Int) (f : α → β → γ)
      (outer : List α) (inner : List β),
      joinList oks iks f outer inner
        = outer.flatMap (fun o => (inner.filter (fun i => iks i == oks o)).map (f o)) := by
    intro α β γ oks iks f outer inner
    rw [joinList]
    congr 1
    funext o
    rw [mapFindGroup_match_map, mapFindGroup_buildGroupsBy]
    simp
  have hgroupJoin : ∀ (α β γ : Type) (oks : α → Int) (iks : β → Int)
      (f : α → List β → γ) (outer : List α) (inner : List β),
      groupJoinList oks iks f outer inner
        = outer.map (fun o => f o (inner.filter (fun i => iks i == oks o))) := by
    intro α β γ oks iks f outer inner
    rw [groupJoinList]
    congr 1
    funext o
    rw [mapFindGroup_match_apply, mapFindGroup_buildGroupsBy]
    simp
  refine ⟨hjoin, hgroupJoin, ?_, by decide⟩
  intro α β γ oks iks f outer inner
  rw [hgroupJoin]
  exact List.length_map outer _

theorem stepState_succ (e : Enumerable α σ) (s : σ) (n : Nat) :
    stepState e s (n + 1) = (e.next (stepState e s n)).2 := by
  induction n generalizing s with
  | zero => rfl
  | succ n ih =>
    show stepState e (e.next s).2 (n + 1) = _
    rw [ih]
    rfl

theorem advanceN_eq (e : Enumerable α σ) (m : Nat) :
    advanceN e m = ⟨stepState e e.zero m, none, false, m⟩ := by
  induction m with
  | zero => rfl
  | succ m ih =>
    show (advanceN e m).inc e = _
    rw [ih]
    simp [ConstIterator.inc, stepState_succ]

theorem getPcur_advanceN (e : Enumerable α σ) (m : Nat) :
    (advanceN e m).getPcur e = produceFrom e e.zero m := by
  rw [advanceN_eq]
  rfl

theorem passFrom_eq (e : Enumerable α σ) (fuel : Nat) :
    ∀ (s : σ) (p : Nat), passFrom e ⟨s, none, false, p⟩ fuel = produceList e s fuel := by
  induction fuel with
  | zero => intro s p; rfl
  | succ fuel ih =>
    intro s p
    simp only [passFrom]
    cases h : e.next s with
    | mk o s2 =>
      cases o with
      | none =>
        simp [ConstIterator.getPcur, ConstIterator.load, h, produceList]
      | some x =>
        simp [ConstIterator.getPcur, ConstIterator.load, ConstIterator.inc, h,
          produceList, ih]

/-- Claim C9: the handle is stateless: begin() always rebuilds a fresh
iterator from the handle's initial producer state, so any full pass from a
fresh begin() yields exactly the producer's sequence, independent of other
iterators (two passes yield the same elements); and two iterators of the
same handle compare equal iff both are exhausted or both are non-exhausted
at the same logical position. -/
theorem C9_handle_stateless (α σ : Type) (e : Enumerable α σ) :
    (e.begin = ⟨e.zero, none, false, 0⟩) ∧
    (∀ fuel : Nat, pass e fuel = produceList e e.zero fuel) ∧
    (∀ m n : Nat,
      iterEq e (advanceN e m) (advanceN e n) = true ↔
        ((produceFrom e e.zero m = none ∧ produceFrom e e.zero n = none) ∨
         (produceFrom e e.zero m ≠ none ∧ produceFrom e e.zero n ≠ none ∧ m = n))) := by
  refine ⟨rfl, ?_, ?_⟩
  · intro fuel
    rw [pass]
    exact passFrom_eq e fuel e.zero 0
  · intro m n
    simp only [iterEq, getPcur_advanceN]
    rw [advanceN_eq e m, advanceN_eq e n]
    cases hm : produceFrom e e.zero m <;> cases hn : produceFrom e e.zero n <;> simp

/-- Claim C5 counterexample: the reverse operator's fallback branch reads
the entire source at pipeline construction time.  Applying it to a fresh
three-element source leaves three elements read before any iteration or
size query, where the claim requires zero. -/
theorem C5_counterexample :
    (applyReverseFallback (Source.fresh ([1, 2, 3] : List Int))).2.reads = 3 ∧
    (3 : Nat) ≠ 0 := by
  exact ⟨rfl, by decide⟩

/-- Claim C5 (amended): pipeline construction reads no source element for
where, select, take, skip, distinct, union, zip, except/intersect,
group_by, join, group_join and order_by; each materializing operator among
order_by, group_by, join, group_join and the except/intersect snapshots
materializes exactly once, triggered by the first pull after construction,
and every later pull reuses the cached result without touching the sources
again; the reverse fallback instead materializes the whole upstream
exactly once, at operator application time. -/
theorem C5_lazy_memoized :
    (∀ (α : Type) (src : Source α),
      (applyWhere src).2 = src ∧ (applySelect src).2 = src ∧
      (applyTake src).2 = src ∧ (applySkip src).2 = src ∧
      (applyDistinct src).2 = src) ∧
    (∀ (α : Type) (src1 src2 : Source α),
      (applyUnion src1 src2).2.1 = src1 ∧ (applyUnion src1 src2).2.2 = src2 ∧
      (applyFilterBySnapshot src1 src2).1.snapshot = none ∧
      (applyFilterBySnapshot src1 src2).2.1 = src1 ∧
      (applyFilterBySnapshot src1 src2).2.2 = src2) ∧
    (∀ (α β : Type) (src1 : Source α) (src2 : Source β),
      (applyZip src1 src2).2.1 = src1 ∧ (applyZip src1 src2).2.2 = src2) ∧
    (∀ (α γ : Type) (src : Source α),
      @applyGroupBy α γ src = (CacheState.start, src) ∧
      applyOrderBy src = (CacheState.start, src)) ∧
    (∀ (α β γ : Type) (outerSrc : Source α) (innerSrc : Source β),
      @applyJoin α β γ outerSrc innerSrc = (CacheState.start, outerSrc, innerSrc)) ∧
    (∀ (α β γ : Type) (ks : α → Int) (vs : α → β) (rs : Int → List β → γ)
        (i : Nat) (src : Source α),
      groupByPull ks vs rs ⟨none, i⟩ src
        = ((groupByResults ks vs rs src.elems)[i]?,
           ⟨some (groupByResults ks vs rs src.elems), i + 1⟩,
           ⟨src.elems, src.reads + src.elems.length⟩) ∧
      (∀ results : List γ,
        groupByPull ks vs rs ⟨some results, i⟩ src
          = (results[i]?, ⟨some results, i + 1⟩, src))) ∧
    (∀ (α : Type) (cmp : α → α → Int) (i : Nat) (src : Source α),
      orderByPull cmp ⟨none, i⟩ src
        = (((OrderByWithSeq.mk src.elems cmp).ordered)[i]?,
           ⟨some ((OrderByWithSeq.mk src.elems cmp).ordered), i + 1⟩,
           ⟨src.elems, src.reads + src.elems.length⟩) ∧
      (∀ results : List α,
        orderByPull cmp ⟨some results, i⟩ src
          = (results[i]?, ⟨some results, i + 1⟩, src))) ∧
    (∀ (α β γ : Type) (oks : α → Int) (iks : β → Int) (f : α → β → γ)
        (i : Nat) (outerSrc : Source α) (innerSrc : Source β),
      joinPull oks iks f ⟨none, i⟩ outerSrc innerSrc
        = ((joinList oks iks f outerSrc.elems innerSrc.elems)[i]?,
           ⟨some (joinList oks iks f outerSrc.elems innerSrc.elems), i + 1⟩,
           ⟨outerSrc.elems, outerSrc.reads + outerSrc.elems.length⟩,
           ⟨innerSrc.elems, innerSrc.reads + innerSrc.elems.length⟩) ∧
      (∀ results : List γ,
        joinPull oks iks f ⟨some results, i⟩ outerSrc innerSrc
          = (results[i]?, ⟨some results, i + 1⟩, outerSrc, innerSrc))) ∧
    (∀ (α β γ : Type) (oks : α → Int) (iks : β → Int) (f : α → List β → γ)
        (i : Nat) (outerSrc : Source α) (innerSrc : Source β),
      groupJoinPull oks iks f ⟨none, i⟩ outerSrc innerSrc
        = ((groupJoinList oks iks f outerSrc.elems innerSrc.elems)[i]?,
           ⟨some (groupJoinList oks iks f outerSrc.elems innerSrc.elems), i + 1⟩,
           ⟨outerSrc.elems, outerSrc.reads + outerSrc.elems.length⟩,
           ⟨innerSrc.elems, innerSrc.reads + innerSrc.elems.length⟩) ∧
      (∀ results : List γ,
        groupJoinPull oks iks f ⟨some results, i⟩ outerSrc innerSrc
          = (results[i]?, ⟨some results, i + 1⟩, outerSrc, innerSrc))) ∧
    (∀ (α : Type) (lt : α → α → Bool) (x : α) (xs : List α) (r1 : Nat)
        (src2 : Source α),
      (exceptPull lt ⟨none, 0⟩ ⟨x :: xs, r1⟩ src2).2.1.snapshot
          = some (sortByLt lt src2.elems) ∧
      (exceptPull lt ⟨none, 0⟩ ⟨x :: xs, r1⟩ src2).2.2.2
          = ⟨src2.elems, src2.reads + src2.elems.length⟩ ∧
      (intersectPull lt ⟨none, 0⟩ ⟨x :: xs, r1⟩ src2).2.1.snapshot
          = some (sortByLt lt src2.elems) ∧
      (intersectPull lt ⟨none, 0⟩ ⟨x :: xs, r1⟩ src2).2.2.2
          = ⟨src2.elems, src2.reads + src2.elems.length⟩) ∧
    (∀ (α : Type) (lt : α → α → Bool) (v : List α) (pos : Nat)
        (src1 src2 : Source α),
      (exceptPull lt ⟨some v, pos⟩ src1 src2).2.1.snapshot = some v ∧
      (exceptPull lt ⟨some v, pos⟩ src1 src2).2.2.2 = src2 ∧
      (intersectPull lt ⟨some v, pos⟩ src1 src2).2.1.snapshot = some v ∧
      (intersectPull lt ⟨some v, pos⟩ src1 src2).2.2.2 = src2) ∧
    (∀ (α : Type) (src : Source α),
      applyReverseFallback src
        = (src.elems.reverse, ⟨src.elems, src.reads + src.elems.length⟩)) := by
  refine ⟨?_, ?_, ?_, ?_, ?_, ?_, ?_, ?_, ?_, ?_, ?_, ?_⟩
  · intro α src; exact ⟨rfl, rfl, rfl, rfl, rfl⟩
  · intro α src1 src2; exact ⟨rfl, rfl, rfl, rfl, rfl⟩
  · intro α β src1 src2; exact ⟨rfl, rfl⟩
  · intro α γ src; exact ⟨rfl, rfl⟩
  · intro α β γ o i; rfl
  · intro α β γ ks vs rs i src
    exact ⟨rfl, fun results => rfl⟩
  · intro α cmp i src
    exact ⟨rfl, fun results => rfl⟩
  · intro α β γ oks iks f i o inn
    exact ⟨rfl, fun results => rfl⟩
  · intro α β γ oks iks f i o inn
    exact ⟨rfl, fun results => rfl⟩
  · intro α lt x xs r1 src2
    refine ⟨?_, ?_, ?_, ?_⟩
    · cases hs : scanFirst (fun y => !binSearchContains lt (sortByLt lt src2.elems) y) (x :: xs) <;>
        simp [exceptPull, Source.readAll, hs]
    · cases hs : scanFirst (fun y => !binSearchContains lt (sortByLt lt src2.elems) y) (x :: xs) <;>
        simp [exceptPull, Source.readAll, hs]
    · cases hs : scanFirst (fun y => binSearchContains lt (sortByLt lt src2.elems) y) (x :: xs) <;>
        simp [intersectPull, Source.readAll, hs]
    · cases hs : scanFirst (fun y => binSearchContains lt (sortByLt lt src2.elems) y) (x :: xs) <;>
        simp [intersectPull, Source.readAll, hs]
  · intro α lt v pos src1 src2
    refine ⟨?_, ?_, ?_, ?_⟩
    · cases h : src1.elems.drop pos with
      | nil => simp [exceptPull, h]
      | cons x xs =>
        cases hs : scanFirst (fun y => !binSearchContains lt v y) (x :: xs) <;>
          simp [exceptPull, h, hs]
    · cases h : src1.elems.drop pos with
      | nil => simp [exceptPull, h]
      | cons x xs =>
        cases hs : scanFirst (fun y => !binSearchContains lt v y) (x :: xs) <;>
          simp [exceptPull, h, hs]
    · cases h : src1.elems.drop pos with
      | nil => simp [intersectPull, h]
      | cons x xs =>
        cases hs : scanFirst (fun y => binSearchContains lt v y) (x :: xs) <;>
          simp [intersectPull, h, hs]
    · cases h : src1.elems.drop pos with
      | nil => simp [intersectPull, h]
      | cons x xs =>
        cases hs : scanFirst (fun y => binSearchContains lt v y) (x :: xs) <;>
          simp [intersectPull, h, hs]
  · intro α src; rfl

end CoveoLinq
